import Mathlib

/-!
Verification of the Setting Sun sliding-block puzzle engine.

The definitions below are a shallow embedding of the two source files
`src/app/src/piece.ts` (the piece/shape model) and `src/app/src/App.tsx`
(board state, move validator, win evaluator and driver).  TypeScript
numbers are modelled as `Int`; the insertion-ordered `Map<number, Piece>`
is modelled as an association list `List (Int × Piece)`; `findPiece`'s
exception is modelled by `Option`.  The stringified-coordinate sets used
by `getCoveredArea` are modelled as lists of positions (JSON.stringify of
`{x, y}` is injective on integer pairs, so membership of strings and
membership of positions coincide).
-/

namespace SettingSun

/-- piece.ts: `GRID_WIDTH = 4`. -/
def GRID_WIDTH : Int := 4

/-- piece.ts: `GRID_HEIGHT = 5`. -/
def GRID_HEIGHT : Int := 5

/-- piece.ts `PiecePosition`: an (x, y) grid coordinate. -/
structure PiecePosition where
  x : Int
  y : Int
deriving DecidableEq

/-- piece.ts `MoveDirection`. -/
inductive MoveDirection where
  | up
  | down
  | left
  | right
deriving DecidableEq

/-- piece.ts `movePosition`: transforms a position by 1 point in a direction. -/
def movePosition (position : PiecePosition) (direction : MoveDirection) : PiecePosition :=
  match direction with
  | .up => ⟨position.x, position.y - 1⟩
  | .down => ⟨position.x, position.y + 1⟩
  | .left => ⟨position.x - 1, position.y⟩
  | .right => ⟨position.x + 1, position.y⟩

/-- The four concrete piece classes of piece.ts. -/
inductive Shape where
  | square
  | verticalRect
  | horizontalRect
  | sunSquare
deriving DecidableEq

/-- A piece value: which of the four classes it is, its topLeft, and its id
(the constructor arguments that determine all of a piece's behaviour). -/
structure Piece where
  shape : Shape
  topLeft : PiecePosition
  id : Int
deriving DecidableEq

/-- `getDimensions` of each class, as (width, height):
Square 1×1, VerticalRect 1×2, HorizontalRect 2×1, SunSquare 2×2. -/
def Piece.getDimensions (p : Piece) : Nat × Nat :=
  match p.shape with
  | .square => (1, 1)
  | .verticalRect => (1, 2)
  | .horizontalRect => (2, 1)
  | .sunSquare => (2, 2)

/-- piece.ts `getCoveredArea`: all positions covered by a piece, from its
dimensions and top-left coordinate (the loop over `i < width`, `j < height`). -/
def getCoveredArea (piece : Piece) : List PiecePosition :=
  (List.range piece.getDimensions.1).flatMap (fun (i : Nat) =>
    (List.range piece.getDimensions.2).map (fun (j : Nat) =>
      ⟨piece.topLeft.x + (i : Int), piece.topLeft.y + (j : Int)⟩))

/-- piece.ts `areasOverlap`: filters area1 to the points in area2 and checks
the result is nonempty. -/
def areasOverlap (area1 area2 : List PiecePosition) : Bool :=
  decide (0 < (area1.filter (fun point => decide (point ∈ area2))).length)

/-- `Square.canMove`: the bounds test a single unit cell performs. -/
def squareCanMove (topLeft : PiecePosition) (direction : MoveDirection) : Bool :=
  match direction with
  | .up => decide (topLeft.y > 0)
  | .down => decide (topLeft.y < GRID_HEIGHT - 1)
  | .left => decide (topLeft.x > 0)
  | .right => decide (topLeft.x < GRID_WIDTH - 1)

/-- The top-left positions of the constituent Squares each class builds in its
constructor (a Square is its own single cell; VerticalRect stacks two cells;
HorizontalRect puts two side by side; SunSquare has a 2×2 block). -/
def constituentTopLefts (p : Piece) : List PiecePosition :=
  match p.shape with
  | .square => [p.topLeft]
  | .verticalRect => [p.topLeft, ⟨p.topLeft.x, p.topLeft.y + 1⟩]
  | .horizontalRect => [p.topLeft, ⟨p.topLeft.x + 1, p.topLeft.y⟩]
  | .sunSquare =>
      [p.topLeft, ⟨p.topLeft.x + 1, p.topLeft.y⟩,
       ⟨p.topLeft.x, p.topLeft.y + 1⟩, ⟨p.topLeft.x + 1, p.topLeft.y + 1⟩]

/-- `canMove` of each class: `Square` checks its own cell; the composite
classes check `squares.every((square) => square.canMove(direction))`. -/
def Piece.canMove (p : Piece) (direction : MoveDirection) : Bool :=
  (constituentTopLefts p).all (fun s => squareCanMove s direction)

/-- `move` of each class: a new piece of the same class with the top-left
transformed by `movePosition` and the same id. -/
def Piece.move (p : Piece) (direction : MoveDirection) : Piece :=
  { p with topLeft := movePosition p.topLeft direction }

/-- `intersects` of each class: `areasOverlap(getCoveredArea(this), getCoveredArea(other))`. -/
def Piece.intersects (p other : Piece) : Bool :=
  areasOverlap (getCoveredArea p) (getCoveredArea other)

/-- App.tsx board state: the `ReadonlyMap<number, Piece>` as an insertion-ordered
association list. -/
abbrev Board := List (Int × Piece)

/-- `pieces.get(pieceID)`: the piece stored under a key.  `findPiece` in App.tsx
throws when this is `none`. -/
def boardGet (pieces : Board) (pieceID : Int) : Option Piece :=
  (pieces.find? (fun e => e.1 == pieceID)).map Prod.snd

/-- App.tsx: `SUN_ID = 1`. -/
def SUN_ID : Int := 1

/-- App.tsx `initialPieces`: the fixed ten-piece layout. -/
def initialPieces : List Piece :=
  [⟨.verticalRect, ⟨0, 0⟩, 0⟩,
   ⟨.sunSquare, ⟨1, 0⟩, SUN_ID⟩,
   ⟨.verticalRect, ⟨3, 0⟩, 2⟩,
   ⟨.horizontalRect, ⟨1, 2⟩, 3⟩,
   ⟨.verticalRect, ⟨0, 3⟩, 4⟩,
   ⟨.square, ⟨1, 3⟩, 5⟩,
   ⟨.square, ⟨2, 3⟩, 6⟩,
   ⟨.verticalRect, ⟨3, 3⟩, 7⟩,
   ⟨.square, ⟨1, 4⟩, 8⟩,
   ⟨.square, ⟨2, 4⟩, 9⟩]

/-- App.tsx `initializePieces`: builds the map keyed by `piece.getID()`,
in the order of `initialPieces`. -/
def initializePieces : Board :=
  initialPieces.map (fun piece => (piece.id, piece))

/-- App.tsx `checkWinCondition`: the win evaluator. -/
def checkWinCondition (pieceID : Int) (piece : Piece) (direction : MoveDirection) : Bool :=
  if direction == MoveDirection.down && pieceID == SUN_ID then
    piece.topLeft.x == 1 && piece.topLeft.y == GRID_HEIGHT - 2
  else
    false

/-- App.tsx `canMoveWithOthers`: the move validator.  `none` models the
exception thrown by `findPiece` when the id is absent. -/
def canMoveWithOthers (pieces : Board) (pieceID : Int) (direction : MoveDirection) :
    Option Bool :=
  match boardGet pieces pieceID with
  | none => none
  | some piece =>
    if checkWinCondition pieceID piece direction then
      some true
    else if !(piece.canMove direction) then
      some false
    else
      let movedPiece := piece.move direction
      let movedPieceID := movedPiece.id
      some (pieces.all (fun e => !(e.1 != movedPieceID && e.2.intersects movedPiece)))

/-- App.tsx `onMove`: the driver's move operation.  It returns the updated
board (the `setPieces` rebuild, which replaces the entry whose key equals the
moved piece's id) together with the win flag (`checkWinCondition` on the
pre-move piece, which triggers the alert).  `none` models `findPiece` throwing. -/
def onMove (pieces : Board) (pieceID : Int) (direction : MoveDirection) :
    Option (Board × Bool) :=
  match boardGet pieces pieceID with
  | none => none
  | some piece =>
    let won := checkWinCondition pieceID piece direction
    let movedPiece := piece.move direction
    let movedPieceID := movedPiece.id
    some (pieces.map (fun e => if e.1 == movedPieceID then (movedPieceID, movedPiece) else e),
          won)

/-! ### Spec-level notions

These definitions follow the specification's words (occupied-cell sets and
grid bounds) and are related to the code-level definitions by lemmas below. -/

/-- The occupied-cell set of a piece as described by the spec: the
width×height rectangle of cells from its top-left. -/
def occupiedCellSet (p : Piece) : Set PiecePosition :=
  {c | p.topLeft.x ≤ c.x ∧ c.x < p.topLeft.x + (p.getDimensions.1 : Int) ∧
       p.topLeft.y ≤ c.y ∧ c.y < p.topLeft.y + (p.getDimensions.2 : Int)}

/-- A cell lies within [0, GRID_WIDTH)×[0, GRID_HEIGHT). -/
def cellInGrid (c : PiecePosition) : Prop :=
  0 ≤ c.x ∧ c.x < GRID_WIDTH ∧ 0 ≤ c.y ∧ c.y < GRID_HEIGHT

/-- Every occupied cell of the piece lies within the grid. -/
def pieceInGrid (p : Piece) : Prop :=
  ∀ c ∈ occupiedCellSet p, cellInGrid c

/-- Translating every occupied cell of the piece one step in the direction
keeps all cells within the grid. -/
def translatedInGrid (p : Piece) (d : MoveDirection) : Prop :=
  ∀ c ∈ occupiedCellSet p, cellInGrid (movePosition c d)

/-- Executable (code-level) in-grid check over `getCoveredArea`. -/
def inGridB (p : Piece) : Bool :=
  (getCoveredArea p).all (fun c =>
    decide (0 ≤ c.x) && decide (c.x < 4) && decide (0 ≤ c.y) && decide (c.y < 5))

/-- Executable bound allowing one extra row below the grid: this is the region
a piece can occupy once the Sun has used the win exit. -/
def inExtB (p : Piece) : Bool :=
  (getCoveredArea p).all (fun c =>
    decide (0 ≤ c.x) && decide (c.x < 4) && decide (0 ≤ c.y) && decide (c.y < 6))

/-! ### Board invariants, reachability, and a concrete solution run -/

/-- Key consistency: each key of the board maps to a piece whose id equals it. -/
def keysMatch (B : Board) : Prop := ∀ e ∈ B, e.2.id = e.1

/-- The board's keys are pairwise distinct (always true of a `Map`). -/
def keysNodup (B : Board) : Prop := (B.map Prod.fst).Nodup

/-- The entry keyed by the Sun's identity holds a 2×2 SunSquare. -/
def sunShaped (B : Board) : Prop := ∀ e ∈ B, e.1 = SUN_ID → e.2.shape = Shape.sunSquare

/-- No two entries of the board hold intersecting pieces (code-level). -/
def disjointPieces (B : Board) : Prop := B.Pairwise (fun a b => a.2.intersects b.2 = false)

/-- Every piece not keyed by the Sun's identity is inside the grid. -/
def othersInGrid (B : Board) : Prop := ∀ e ∈ B, e.1 ≠ SUN_ID → inGridB e.2 = true

/-- The Sun's piece is inside the grid extended one row past the bottom
(the row it occupies right after taking the win exit). -/
def sunInExt (B : Board) : Prop := ∀ e ∈ B, e.1 = SUN_ID → inExtB e.2 = true

/-- Every piece of the board is inside the grid (code-level). -/
def allInGrid (B : Board) : Prop := ∀ e ∈ B, inGridB e.2 = true

/-- The inductive invariant maintained by every validator-accepted move. -/
def Inv (B : Board) : Prop :=
  keysMatch B ∧ keysNodup B ∧ sunShaped B ∧ disjointPieces B ∧ othersInGrid B ∧ sunInExt B

/-- Boards reachable from the initial layout by driver moves each of which the
validator accepts against the then-current board. -/
inductive Reachable : Board → Prop where
  | init : Reachable initializePieces
  | step {B : Board} {k : Int} {d : MoveDirection} {B1 : Board} {w : Bool} :
      Reachable B → canMoveWithOthers B k d = some true →
      onMove B k d = some (B1, w) → Reachable B1

/-- Boards reachable as in `Reachable`, but by moves none of which triggered
the win condition. -/
inductive ReachableNoWin : Board → Prop where
  | init : ReachableNoWin initializePieces
  | step {B : Board} {k : Int} {d : MoveDirection} {B1 : Board} :
      ReachableNoWin B → canMoveWithOthers B k d = some true →
      onMove B k d = some (B1, false) → ReachableNoWin B1

/-- Applies one driver move, but only when the validator accepts it. -/
def stepAccepted (B : Board) (m : Int × MoveDirection) : Option Board :=
  if canMoveWithOthers B m.1 m.2 = some true then (onMove B m.1 m.2).map Prod.fst else none

/-- Runs a list of validator-accepted driver moves from a board. -/
def runAccepted (B : Board) (ms : List (Int × MoveDirection)) : Option Board :=
  match ms with
  | [] => some B
  | m :: rest => (stepAccepted B m).bind (fun B1 => runAccepted B1 rest)

/-- A concrete sequence of validator-accepted moves that solves the puzzle:
the last move is the Sun's win-exit move down from (1, 3). -/
def solutionMoves : List (Int × MoveDirection) := [(3, MoveDirection.left), (6, MoveDirection.up), (6, MoveDirection.right), (3, MoveDirection.right), (4, MoveDirection.up), (8, MoveDirection.left), (9, MoveDirection.left), (7, MoveDirection.left), (6, MoveDirection.down), (3, MoveDirection.right), (5, MoveDirection.up), (6, MoveDirection.down), (9, MoveDirection.up), (8, MoveDirection.right), (4, MoveDirection.down), (5, MoveDirection.left), (3, MoveDirection.left), (2, MoveDirection.down), (2, MoveDirection.down), (1, MoveDirection.right), (0, MoveDirection.right), (5, MoveDirection.up), (4, MoveDirection.up), (5, MoveDirection.up), (4, MoveDirection.up), (8, MoveDirection.left), (9, MoveDirection.left), (7, MoveDirection.left), (6, MoveDirection.left), (2, MoveDirection.down), (3, MoveDirection.right), (6, MoveDirection.up), (7, MoveDirection.up), (8, MoveDirection.right), (8, MoveDirection.right), (7, MoveDirection.down), (0, MoveDirection.down), (5, MoveDirection.right), (4, MoveDirection.up), (9, MoveDirection.up), (7, MoveDirection.left), (0, MoveDirection.down), (0, MoveDirection.down), (9, MoveDirection.right), (9, MoveDirection.up), (3, MoveDirection.left), (2, MoveDirection.up), (3, MoveDirection.left), (8, MoveDirection.right), (6, MoveDirection.down), (2, MoveDirection.left), (8, MoveDirection.up), (6, MoveDirection.right), (2, MoveDirection.down), (3, MoveDirection.right), (3, MoveDirection.right), (0, MoveDirection.up), (4, MoveDirection.down), (5, MoveDirection.left), (9, MoveDirection.up), (0, MoveDirection.up), (2, MoveDirection.left), (6, MoveDirection.left), (8, MoveDirection.down), (3, MoveDirection.down), (1, MoveDirection.down), (9, MoveDirection.right), (5, MoveDirection.right), (4, MoveDirection.up), (7, MoveDirection.up), (9, MoveDirection.right), (5, MoveDirection.right), (0, MoveDirection.up), (2, MoveDirection.up), (6, MoveDirection.left), (6, MoveDirection.left), (8, MoveDirection.left), (8, MoveDirection.left), (3, MoveDirection.down), (1, MoveDirection.down), (5, MoveDirection.down), (5, MoveDirection.right), (0, MoveDirection.right), (2, MoveDirection.up), (2, MoveDirection.up), (1, MoveDirection.left), (5, MoveDirection.down), (5, MoveDirection.down), (9, MoveDirection.down), (9, MoveDirection.down), (0, MoveDirection.right), (2, MoveDirection.right), (4, MoveDirection.right), (7, MoveDirection.up), (7, MoveDirection.up), (1, MoveDirection.left), (5, MoveDirection.left), (5, MoveDirection.up), (3, MoveDirection.up), (8, MoveDirection.right), (6, MoveDirection.right), (8, MoveDirection.right), (6, MoveDirection.right), (1, MoveDirection.down), (5, MoveDirection.left), (5, MoveDirection.left), (9, MoveDirection.left), (9, MoveDirection.left), (3, MoveDirection.up), (6, MoveDirection.up), (6, MoveDirection.right), (1, MoveDirection.right), (1, MoveDirection.down)]

/-- The board after running `solutionMoves` from the initial layout: the Sun
has left the grid through the exit (its top-left is (1, 4)). -/
def finalBoard : Board := [
  (0, ⟨Shape.verticalRect, ⟨3, 0⟩, 0⟩),
  (1, ⟨Shape.sunSquare, ⟨1, 4⟩, 1⟩),
  (2, ⟨Shape.verticalRect, ⟨2, 0⟩, 2⟩),
  (3, ⟨Shape.horizontalRect, ⟨2, 2⟩, 3⟩),
  (4, ⟨Shape.verticalRect, ⟨1, 0⟩, 4⟩),
  (5, ⟨Shape.square, ⟨0, 2⟩, 5⟩),
  (6, ⟨Shape.square, ⟨3, 3⟩, 6⟩),
  (7, ⟨Shape.verticalRect, ⟨0, 0⟩, 7⟩),
  (8, ⟨Shape.square, ⟨3, 4⟩, 8⟩),
  (9, ⟨Shape.square, ⟨1, 2⟩, 9⟩)]

/-- Spec-level disjointness of a board: the occupied-cell sets of any two
distinct pieces share no cell. -/
def specDisjoint (B : Board) : Prop :=
  B.Pairwise (fun a b => ∀ c, c ∈ occupiedCellSet a.2 → c ∈ occupiedCellSet b.2 → False)

/-- Spec-level bounds: every piece's occupied-cell set lies within
[0, GRID_WIDTH)×[0, GRID_HEIGHT). -/
def specInGrid (B : Board) : Prop := ∀ e ∈ B, pieceInGrid e.2

/-- The board rebuild performed by `onMove`'s `setPieces` callback: every
entry whose key equals the moved piece's id is replaced. -/
def boardUpdate (B : Board) (pid : Int) (p : Piece) : Board :=
  B.map (fun e => if e.1 == pid then (pid, p) else e)

/-- The opposite of each direction. -/
def oppositeDirection (d : MoveDirection) : MoveDirection :=
  match d with
  | .up => .down
  | .down => .up
  | .left => .right
  | .right => .left

/-! ### Basic characterisations -/

/-- Width as an integer. -/
def widthInt (p : Piece) : Int := (p.getDimensions.1 : Int)

/-- Height as an integer. -/
def heightInt (p : Piece) : Int := (p.getDimensions.2 : Int)

theorem mem_getCoveredArea (p : Piece) (c : PiecePosition) :
    c ∈ getCoveredArea p ↔
      p.topLeft.x ≤ c.x ∧ c.x < p.topLeft.x + widthInt p ∧
      p.topLeft.y ≤ c.y ∧ c.y < p.topLeft.y + heightInt p := by
  unfold getCoveredArea widthInt heightInt
  rw [List.mem_flatMap]
  constructor
  · rintro ⟨i, hi, hc⟩
    rw [List.mem_range] at hi
    rw [List.mem_map] at hc
    obtain ⟨j, hj, hc⟩ := hc
    rw [List.mem_range] at hj
    obtain ⟨cx, cy⟩ := c
    injection hc with hx hy
    dsimp only
    omega
  · rintro ⟨h1, h2, h3, h4⟩
    refine ⟨(c.x - p.topLeft.x).toNat, ?_, ?_⟩
    · rw [List.mem_range]; omega
    · rw [List.mem_map]
      refine ⟨(c.y - p.topLeft.y).toNat, ?_, ?_⟩
      · rw [List.mem_range]; omega
      · obtain ⟨cx, cy⟩ := c
        dsimp only at h1 h2 h3 h4 ⊢
        rw [PiecePosition.mk.injEq]
        omega

theorem mem_occupiedCellSet (p : Piece) (c : PiecePosition) :
    c ∈ occupiedCellSet p ↔ c ∈ getCoveredArea p := by
  rw [mem_getCoveredArea]
  simp [occupiedCellSet, widthInt, heightInt]

theorem areasOverlap_iff (area1 area2 : List PiecePosition) :
    areasOverlap area1 area2 = true ↔ ∃ c, c ∈ area1 ∧ c ∈ area2 := by
  unfold areasOverlap
  rw [decide_eq_true_iff, List.length_pos_iff_exists_mem]
  constructor
  · rintro ⟨c, hc⟩
    rw [List.mem_filter] at hc
    exact ⟨c, hc.1, of_decide_eq_true hc.2⟩
  · rintro ⟨c, h1, h2⟩
    exact ⟨c, List.mem_filter.mpr ⟨h1, decide_eq_true h2⟩⟩

theorem intersects_iff (p q : Piece) :
    p.intersects q = true ↔ ∃ c, c ∈ occupiedCellSet p ∧ c ∈ occupiedCellSet q := by
  unfold Piece.intersects
  rw [areasOverlap_iff]
  constructor <;> rintro ⟨c, h1, h2⟩ <;>
    exact ⟨c, by rw [mem_occupiedCellSet] at *; exact h1,
      by rw [mem_occupiedCellSet] at *; exact h2⟩

theorem intersects_symm_eq (p q : Piece) : p.intersects q = q.intersects p := by
  rw [Bool.eq_iff_iff, intersects_iff, intersects_iff]
  constructor <;> rintro ⟨c, h1, h2⟩ <;> exact ⟨c, h2, h1⟩

theorem dims_pos (p : Piece) : 1 ≤ widthInt p ∧ 1 ≤ heightInt p := by
  obtain ⟨s, t, i⟩ := p
  cases s <;> simp [widthInt, heightInt, Piece.getDimensions]

theorem canMove_iff (p : Piece) (d : MoveDirection) :
    p.canMove d = true ↔
      (match d with
       | .up => 0 < p.topLeft.y
       | .down => p.topLeft.y + heightInt p < GRID_HEIGHT
       | .left => 0 < p.topLeft.x
       | .right => p.topLeft.x + widthInt p < GRID_WIDTH) := by
  obtain ⟨s, ⟨x, y⟩, i⟩ := p
  cases s <;> cases d <;>
    simp [Piece.canMove, constituentTopLefts, squareCanMove, heightInt, widthInt,
      Piece.getDimensions, GRID_WIDTH, GRID_HEIGHT] <;>
    omega

theorem inGridB_iff (p : Piece) :
    inGridB p = true ↔
      0 ≤ p.topLeft.x ∧ p.topLeft.x + widthInt p ≤ 4 ∧
      0 ≤ p.topLeft.y ∧ p.topLeft.y + heightInt p ≤ 5 := by
  have hd := dims_pos p
  unfold inGridB
  rw [List.all_eq_true]
  constructor
  · intro h
    have h1 := h ⟨p.topLeft.x, p.topLeft.y⟩
      ((mem_getCoveredArea p _).mpr (by dsimp only; omega))
    have h2 := h ⟨p.topLeft.x + widthInt p - 1, p.topLeft.y + heightInt p - 1⟩
      ((mem_getCoveredArea p _).mpr (by dsimp only; omega))
    simp only [Bool.and_eq_true, decide_eq_true_eq] at h1 h2
    omega
  · intro hb c hc
    rw [mem_getCoveredArea] at hc
    simp only [Bool.and_eq_true, decide_eq_true_eq]
    omega

theorem inExtB_iff (p : Piece) :
    inExtB p = true ↔
      0 ≤ p.topLeft.x ∧ p.topLeft.x + widthInt p ≤ 4 ∧
      0 ≤ p.topLeft.y ∧ p.topLeft.y + heightInt p ≤ 6 := by
  have hd := dims_pos p
  unfold inExtB
  rw [List.all_eq_true]
  constructor
  · intro h
    have h1 := h ⟨p.topLeft.x, p.topLeft.y⟩
      ((mem_getCoveredArea p _).mpr (by dsimp only; omega))
    have h2 := h ⟨p.topLeft.x + widthInt p - 1, p.topLeft.y + heightInt p - 1⟩
      ((mem_getCoveredArea p _).mpr (by dsimp only; omega))
    simp only [Bool.and_eq_true, decide_eq_true_eq] at h1 h2
    omega
  · intro hb c hc
    rw [mem_getCoveredArea] at hc
    simp only [Bool.and_eq_true, decide_eq_true_eq]
    omega

theorem pieceInGrid_iff (p : Piece) : pieceInGrid p ↔ inGridB p = true := by
  unfold pieceInGrid cellInGrid
  unfold inGridB
  rw [List.all_eq_true]
  constructor
  · intro h c hc
    have h2 := h c ((mem_occupiedCellSet p c).mpr hc)
    simp only [Bool.and_eq_true, decide_eq_true_eq]
    unfold GRID_WIDTH GRID_HEIGHT at h2
    omega
  · intro h c hc
    have h2 := h c ((mem_occupiedCellSet p c).mp hc)
    simp only [Bool.and_eq_true, decide_eq_true_eq] at h2
    unfold GRID_WIDTH GRID_HEIGHT
    omega

theorem move_preserves_id (p : Piece) (d : MoveDirection) : (p.move d).id = p.id := rfl

theorem move_preserves_shape (p : Piece) (d : MoveDirection) : (p.move d).shape = p.shape := rfl

theorem canMove_move_inGrid (p : Piece) (d : MoveDirection)
    (hp : inGridB p = true) (hc : p.canMove d = true) : inGridB (p.move d) = true := by
  rw [inGridB_iff] at hp ⊢
  rw [canMove_iff] at hc
  have hw : widthInt (p.move d) = widthInt p := rfl
  have hh : heightInt (p.move d) = heightInt p := rfl
  rw [hw, hh]
  unfold GRID_WIDTH GRID_HEIGHT at hc
  cases d <;> dsimp only [Piece.move, movePosition] at hc ⊢ <;> omega

theorem canMove_move_inExt (p : Piece) (d : MoveDirection)
    (hp : inExtB p = true) (hc : p.canMove d = true) : inExtB (p.move d) = true := by
  rw [inExtB_iff] at hp ⊢
  rw [canMove_iff] at hc
  have hw : widthInt (p.move d) = widthInt p := rfl
  have hh : heightInt (p.move d) = heightInt p := rfl
  rw [hw, hh]
  unfold GRID_WIDTH GRID_HEIGHT at hc
  cases d <;> dsimp only [Piece.move, movePosition] at hc ⊢ <;> omega

/-! ### Board lookup and validator lemmas -/

theorem boardGet_props (B : Board) (k : Int) (p : Piece) (h : boardGet B k = some p) :
    ∃ e, e ∈ B ∧ e.1 = k ∧ e.2 = p := by
  unfold boardGet at h
  cases hf : B.find? (fun e => e.1 == k) with
  | none => rw [hf] at h; cases h
  | some e =>
    rw [hf] at h
    have h1 := List.find?_some hf
    have h2 := List.mem_of_find?_eq_some hf
    rw [beq_iff_eq] at h1
    exact ⟨e, h2, h1, by injection h⟩

theorem keysNodup_tail {a : Int × Piece} {rest : Board} (h : keysNodup (a :: rest)) :
    keysNodup rest := by
  unfold keysNodup at h ⊢
  rw [List.map_cons, List.nodup_cons] at h
  exact h.2

theorem boardGet_of_mem {B : Board} {e : Int × Piece} (hN : keysNodup B) (he : e ∈ B) :
    boardGet B e.1 = some e.2 := by
  induction B with
  | nil => cases he
  | cons a rest ih =>
    rw [List.mem_cons] at he
    rcases he with he | he
    · subst he
      unfold boardGet
      rw [List.find?_cons_of_pos _ (by simp)]
      rfl
    · have hne : a.1 ≠ e.1 := by
        unfold keysNodup at hN
        rw [List.map_cons, List.nodup_cons] at hN
        intro hEq
        exact hN.1 (hEq ▸ List.mem_map_of_mem Prod.fst he)
      unfold boardGet
      rw [List.find?_cons_of_neg _ (by simp [hne])]
      exact ih (keysNodup_tail hN) he

theorem checkWin_char (pieceID : Int) (piece : Piece) (d : MoveDirection) :
    checkWinCondition pieceID piece d = true ↔
      pieceID = SUN_ID ∧ d = MoveDirection.down ∧
      piece.topLeft.x = 1 ∧ piece.topLeft.y = GRID_HEIGHT - 2 := by
  unfold checkWinCondition SUN_ID GRID_HEIGHT
  cases d <;> simp

theorem canMoveWithOthers_win {B : Board} {k : Int} {d : MoveDirection} {piece : Piece}
    (hget : boardGet B k = some piece) (hwin : checkWinCondition k piece d = true) :
    canMoveWithOthers B k d = some true := by
  unfold canMoveWithOthers
  simp only [hget]
  rw [if_pos hwin]

theorem canMoveWithOthers_nonwin {B : Board} {k : Int} {d : MoveDirection} {piece : Piece}
    (hget : boardGet B k = some piece) (hwin : checkWinCondition k piece d = false)
    (hacc : canMoveWithOthers B k d = some true) :
    piece.canMove d = true ∧
      ∀ e ∈ B, e.1 ≠ piece.id → e.2.intersects (piece.move d) = false := by
  unfold canMoveWithOthers at hacc
  simp only [hget] at hacc
  rw [if_neg (by simp [hwin])] at hacc
  by_cases hcm : piece.canMove d = true
  · refine ⟨hcm, ?_⟩
    rw [if_neg (by simp [hcm])] at hacc
    injection hacc with hall
    rw [List.all_eq_true] at hall
    intro e he hne
    have h2 := hall e he
    by_contra hI
    rw [Bool.not_eq_false] at hI
    rw [hI] at h2
    have h3 : (e.1 != (piece.move d).id) = true := by
      rw [bne_iff_ne, move_preserves_id]
      exact hne
    rw [h3] at h2
    simp at h2
  · rw [if_pos (by simp [Bool.eq_false_iff.mpr hcm])] at hacc
    simp at hacc

theorem onMove_eq (B : Board) (k : Int) (d : MoveDirection) (piece : Piece)
    (h : boardGet B k = some piece) :
    onMove B k d =
      some (boardUpdate B piece.id (piece.move d), checkWinCondition k piece d) := by
  unfold onMove boardUpdate
  simp only [h, move_preserves_id]

theorem disjoint_of_mem {B : Board} {a b : Int × Piece}
    (hD : disjointPieces B) (ha : a ∈ B) (hb : b ∈ B) (hne : a.1 ≠ b.1) :
    a.2.intersects b.2 = false := by
  unfold disjointPieces at hD
  have hsym : Symmetric (fun x y : Int × Piece => x.2.intersects y.2 = false) := by
    intro x y h
    rw [intersects_symm_eq]
    exact h
  exact hD.forall hsym ha hb (fun hEq => hne (congrArg Prod.fst hEq))

/-! ### Properties of the board update performed by onMove -/

theorem mem_boardUpdate {B : Board} {pid : Int} {p : Piece} {e1 : Int × Piece}
    (h : e1 ∈ boardUpdate B pid p) :
    ∃ e ∈ B, (e.1 = pid ∧ e1 = (pid, p)) ∨ (e.1 ≠ pid ∧ e1 = e) := by
  unfold boardUpdate at h
  rw [List.mem_map] at h
  obtain ⟨e, heB, heq⟩ := h
  by_cases hk : e.1 = pid
  · exact ⟨e, heB, Or.inl ⟨hk, by rw [← heq]; simp [hk]⟩⟩
  · exact ⟨e, heB, Or.inr ⟨hk, by rw [← heq]; simp [hk]⟩⟩

theorem boardUpdate_keys (B : Board) (pid : Int) (p : Piece) :
    (boardUpdate B pid p).map Prod.fst = B.map Prod.fst := by
  unfold boardUpdate
  rw [List.map_map]
  apply List.map_congr_left
  intro e heB
  by_cases hk : e.1 = pid <;> simp [hk, Function.comp]

theorem boardUpdate_keysMatch {B : Board} {pid : Int} {q : Piece}
    (hKeys : keysMatch B) (hq : q.id = pid) : keysMatch (boardUpdate B pid q) := by
  intro e1 he1
  obtain ⟨e, heB, hcase⟩ := mem_boardUpdate he1
  rcases hcase with ⟨hek, rfl⟩ | ⟨hek, rfl⟩
  · exact hq
  · exact hKeys _ heB

theorem boardUpdate_keysNodup {B : Board} {pid : Int} {q : Piece}
    (hN : keysNodup B) : keysNodup (boardUpdate B pid q) := by
  unfold keysNodup at hN ⊢
  rw [boardUpdate_keys]
  exact hN

theorem boardUpdate_sunShaped {B : Board} {pid : Int} {q : Piece}
    (hS : sunShaped B) (hq : pid = SUN_ID → q.shape = Shape.sunSquare) :
    sunShaped (boardUpdate B pid q) := by
  intro e1 he1 h1
  obtain ⟨e, heB, hcase⟩ := mem_boardUpdate he1
  rcases hcase with ⟨hek, rfl⟩ | ⟨hek, rfl⟩
  · exact hq h1
  · exact hS _ heB h1

theorem boardUpdate_others {B : Board} {pid : Int} {q : Piece}
    (hOth : othersInGrid B) (hq : pid ≠ SUN_ID → inGridB q = true) :
    othersInGrid (boardUpdate B pid q) := by
  intro e1 he1 hne
  obtain ⟨e, heB, hcase⟩ := mem_boardUpdate he1
  rcases hcase with ⟨hek, rfl⟩ | ⟨hek, rfl⟩
  · exact hq hne
  · exact hOth _ heB hne

theorem boardUpdate_sunExt {B : Board} {pid : Int} {q : Piece}
    (hExt : sunInExt B) (hq : pid = SUN_ID → inExtB q = true) :
    sunInExt (boardUpdate B pid q) := by
  intro e1 he1 h1
  obtain ⟨e, heB, hcase⟩ := mem_boardUpdate he1
  rcases hcase with ⟨hek, rfl⟩ | ⟨hek, rfl⟩
  · exact hq h1
  · exact hExt _ heB h1

theorem boardUpdate_allInGrid {B : Board} {pid : Int} {q : Piece}
    (hAll : allInGrid B) (hq : inGridB q = true) :
    allInGrid (boardUpdate B pid q) := by
  intro e1 he1
  obtain ⟨e, heB, hcase⟩ := mem_boardUpdate he1
  rcases hcase with ⟨hek, rfl⟩ | ⟨hek, rfl⟩
  · exact hq
  · exact hAll _ heB

theorem keys_pairwise {B : Board} (hN : keysNodup B) :
    B.Pairwise (fun a b => a.1 ≠ b.1) := by
  have h2 : (B.map Prod.fst).Pairwise (fun a b => a ≠ b) := hN
  rw [List.pairwise_map] at h2
  exact h2

theorem boardUpdate_disjoint {B : Board} {pid : Int} {q : Piece}
    (hN : keysNodup B) (hD : disjointPieces B)
    (hq : ∀ e ∈ B, e.1 ≠ pid → e.2.intersects q = false) :
    disjointPieces (boardUpdate B pid q) := by
  unfold disjointPieces boardUpdate
  rw [List.pairwise_map]
  unfold disjointPieces at hD
  refine ((hD.and (keys_pairwise hN)).imp_of_mem ?_)
  intro a b ha hb hab
  obtain ⟨hI, hne⟩ := hab
  by_cases hak : a.1 = pid <;> by_cases hbk : b.1 = pid
  · exact absurd (hak.trans hbk.symm) hne
  · rw [if_pos (by simp [hak]), if_neg (by simp [hbk])]
    dsimp only
    rw [intersects_symm_eq]
    exact hq b hb hbk
  · rw [if_neg (by simp [hak]), if_pos (by simp [hbk])]
    dsimp only
    exact hq a ha hak
  · rw [if_neg (by simp [hak]), if_neg (by simp [hbk])]
    exact hI

/-! ### The invariant is preserved by every accepted move -/

theorem Inv_step {B : Board} {k : Int} {d : MoveDirection} {B1 : Board} {w : Bool}
    (hInv : Inv B) (hacc : canMoveWithOthers B k d = some true)
    (hmv : onMove B k d = some (B1, w)) :
    Inv B1 ∧ (w = false → allInGrid B → allInGrid B1) := by
  obtain ⟨hKeys, hNodup, hSun, hDisj, hOth, hExt⟩ := hInv
  cases hget : boardGet B k with
  | none =>
    unfold canMoveWithOthers at hacc
    simp only [hget] at hacc
    cases hacc
  | some piece =>
  obtain ⟨e0, he0B, he0k, he0p⟩ := boardGet_props B k piece hget
  have hpid : piece.id = k := by rw [← he0p, hKeys e0 he0B, he0k]
  rw [onMove_eq B k d piece hget, Option.some.injEq, Prod.mk.injEq] at hmv
  obtain ⟨hB1, hw⟩ := hmv
  subst hB1
  rw [hpid]
  have hqid : (piece.move d).id = k := by rw [move_preserves_id, hpid]
  have hshape : k = SUN_ID → piece.shape = Shape.sunSquare := by
    intro h1
    rw [← he0p]
    exact hSun e0 he0B (he0k.trans h1)
  have hqshape : k = SUN_ID → (piece.move d).shape = Shape.sunSquare := by
    intro h1
    rw [move_preserves_shape]
    exact hshape h1
  by_cases hwin : checkWinCondition k piece d = true
  · -- the win-exit move
    obtain ⟨hk1, hd1, hx1, hy1⟩ := (checkWin_char k piece d).mp hwin
    subst hk1
    subst hd1
    have hps : piece.shape = Shape.sunSquare := hshape rfl
    have hdims : piece.getDimensions = (2, 2) := by
      unfold Piece.getDimensions
      rw [hps]
    unfold GRID_HEIGHT at hy1
    have hNoInter : ∀ e ∈ B, e.1 ≠ SUN_ID →
        e.2.intersects (piece.move MoveDirection.down) = false := by
      intro e he hne
      by_contra hI
      rw [Bool.not_eq_false, intersects_iff] at hI
      obtain ⟨c, hce, hcq⟩ := hI
      have heg : inGridB e.2 = true := hOth e he hne
      have hcell : cellInGrid c := (pieceInGrid_iff e.2).mpr heg c hce
      have hcp : c ∈ occupiedCellSet piece := by
        simp only [occupiedCellSet, Set.mem_setOf_eq] at hcq ⊢
        have hq1 : (piece.move MoveDirection.down).topLeft =
            (⟨piece.topLeft.x, piece.topLeft.y + 1⟩ : PiecePosition) := rfl
        have hq2 : (piece.move MoveDirection.down).getDimensions = piece.getDimensions := rfl
        rw [hq1, hq2, hdims] at hcq
        rw [hdims]
        unfold cellInGrid GRID_WIDTH GRID_HEIGHT at hcell
        dsimp only at hcq ⊢
        omega
      have h2 : e.2.intersects piece = false := by
        have h3 := disjoint_of_mem hDisj he he0B (fun hEq => hne (hEq.trans he0k))
        rw [he0p] at h3
        exact h3
      have h4 : e.2.intersects piece = true := (intersects_iff _ _).mpr ⟨c, hce, hcp⟩
      rw [h4] at h2
      cases h2
    have hqe : inExtB (piece.move MoveDirection.down) = true := by
      rw [inExtB_iff]
      have hq1 : (piece.move MoveDirection.down).topLeft =
          (⟨piece.topLeft.x, piece.topLeft.y + 1⟩ : PiecePosition) := rfl
      have hw2 : widthInt (piece.move MoveDirection.down) = 2 := by
        unfold widthInt Piece.getDimensions
        rw [move_preserves_shape, hps]
        rfl
      have hh2 : heightInt (piece.move MoveDirection.down) = 2 := by
        unfold heightInt Piece.getDimensions
        rw [move_preserves_shape, hps]
        rfl
      rw [hq1, hw2, hh2]
      dsimp only
      omega
    refine ⟨⟨boardUpdate_keysMatch hKeys hqid, boardUpdate_keysNodup hNodup,
      boardUpdate_sunShaped hSun hqshape,
      boardUpdate_disjoint hNodup hDisj hNoInter,
      boardUpdate_others hOth (fun hne => absurd rfl hne),
      boardUpdate_sunExt hExt (fun _ => hqe)⟩, ?_⟩
    intro hwf hAll
    rw [hwf] at hw
    rw [hw] at hwin
    cases hwin
  · -- an ordinary validated move
    rw [Bool.not_eq_true] at hwin
    obtain ⟨hcm, hNoInter⟩ := canMoveWithOthers_nonwin hget hwin hacc
    rw [hpid] at hNoInter
    have hpg : k ≠ SUN_ID → inGridB piece = true := by
      intro hne
      rw [← he0p]
      exact hOth e0 he0B (by rw [he0k]; exact hne)
    have hpe : k = SUN_ID → inExtB piece = true := by
      intro h1
      rw [← he0p]
      exact hExt e0 he0B (by rw [he0k]; exact h1)
    refine ⟨⟨boardUpdate_keysMatch hKeys hqid, boardUpdate_keysNodup hNodup,
      boardUpdate_sunShaped hSun hqshape,
      boardUpdate_disjoint hNodup hDisj hNoInter,
      boardUpdate_others hOth (fun hne => canMove_move_inGrid piece d (hpg hne) hcm),
      boardUpdate_sunExt hExt (fun h1 => canMove_move_inExt piece d (hpe h1) hcm)⟩, ?_⟩
    intro hwf hAll
    refine boardUpdate_allInGrid hAll (canMove_move_inGrid piece d ?_ hcm)
    rw [← he0p]
    exact hAll e0 he0B

/-! ### Reachability gives the invariant -/

theorem Inv_init : Inv initializePieces := by
  unfold Inv keysMatch keysNodup sunShaped disjointPieces othersInGrid sunInExt
  decide

theorem allInGrid_init : allInGrid initializePieces := by
  unfold allInGrid
  decide

theorem reachable_Inv {B : Board} (h : Reachable B) : Inv B := by
  induction h with
  | init => exact Inv_init
  | step hR hacc hmv ih => exact (Inv_step ih hacc hmv).1

theorem reachableNoWin_Inv {B : Board} (h : ReachableNoWin B) : Inv B ∧ allInGrid B := by
  induction h with
  | init => exact ⟨Inv_init, allInGrid_init⟩
  | step hR hacc hmv ih =>
    obtain ⟨hI, hA⟩ := ih
    have h2 := Inv_step hI hacc hmv
    exact ⟨h2.1, h2.2 rfl hA⟩

theorem disjointPieces_spec {B : Board} (hD : disjointPieces B) : specDisjoint B := by
  unfold disjointPieces at hD
  unfold specDisjoint
  refine hD.imp ?_
  intro a b hI c hca hcb
  have h2 : a.2.intersects b.2 = true := (intersects_iff _ _).mpr ⟨c, hca, hcb⟩
  rw [h2] at hI
  cases hI

theorem allInGrid_spec {B : Board} (hA : allInGrid B) : specInGrid B := by
  intro e he
  exact (pieceInGrid_iff e.2).mpr (hA e he)

theorem reachable_of_run {ms : List (Int × MoveDirection)} :
    ∀ {B B1 : Board}, Reachable B → runAccepted B ms = some B1 → Reachable B1 := by
  induction ms with
  | nil =>
    intro B B1 hR hrun
    unfold runAccepted at hrun
    injection hrun with h
    exact h ▸ hR
  | cons m rest ih =>
    intro B B1 hR hrun
    unfold runAccepted at hrun
    cases hs : stepAccepted B m with
    | none => rw [hs] at hrun; cases hrun
    | some B2 =>
      rw [hs] at hrun
      rw [Option.some_bind] at hrun
      unfold stepAccepted at hs
      by_cases hacc : canMoveWithOthers B m.1 m.2 = some true
      · rw [if_pos hacc] at hs
        cases hmv : onMove B m.1 m.2 with
        | none => rw [hmv] at hs; cases hs
        | some pr =>
          rw [hmv] at hs
          have hB2 : pr.1 = B2 := by simpa using hs
          have hmv2 : onMove B m.1 m.2 = some (B2, pr.2) := by
            rw [hmv, ← hB2]
          exact ih (Reachable.step hR hacc hmv2) hrun
      · rw [if_neg hacc] at hs
        cases hs

/-! ### Lookup after the onMove update -/

theorem boardUpdate_key_fixed (pid : Int) (q : Piece) (e : Int × Piece) :
    (if e.1 == pid then (pid, q) else e).1 = e.1 := by
  by_cases hk : e.1 = pid
  · simp [hk]
  · simp [hk]

theorem find?_boardUpdate (B : Board) (pid : Int) (q : Piece) (j : Int) :
    (boardUpdate B pid q).find? (fun e => e.1 == j) =
      (B.find? (fun e => e.1 == j)).map
        (fun e => if e.1 == pid then (pid, q) else e) := by
  unfold boardUpdate
  rw [List.find?_map]
  have hp : ((fun e : Int × Piece => e.1 == j) ∘
      (fun e : Int × Piece => if e.1 == pid then (pid, q) else e)) =
      (fun e : Int × Piece => e.1 == j) := by
    funext e
    simp only [Function.comp]
    rw [boardUpdate_key_fixed]
  rw [hp]

theorem boardGet_boardUpdate_other {B : Board} {pid : Int} {q : Piece} {j : Int}
    (hne : j ≠ pid) : boardGet (boardUpdate B pid q) j = boardGet B j := by
  unfold boardGet
  rw [find?_boardUpdate]
  cases hf : B.find? (fun e => e.1 == j) with
  | none => rfl
  | some e =>
    have h1 := List.find?_some hf
    rw [beq_iff_eq] at h1
    rw [Option.map_some', Option.map_some', Option.map_some']
    rw [if_neg (by simp [h1, hne])]

theorem boardGet_boardUpdate_self {B : Board} {pid : Int} {q : Piece} {p0 : Piece}
    (hget : boardGet B pid = some p0) :
    boardGet (boardUpdate B pid q) pid = some q := by
  unfold boardGet at hget ⊢
  rw [find?_boardUpdate]
  cases hf : B.find? (fun e => e.1 == pid) with
  | none => rw [hf] at hget; cases hget
  | some e =>
    have h1 := List.find?_some hf
    rw [Option.map_some', Option.map_some']
    rw [if_pos h1]

/-! ### Claim theorems -/

/-- C3: the win evaluator `checkWinCondition` returns true if and only if the
identity is the Sun's identity (1), the direction is "down", and the piece's
pre-move top-left equals (1, GRID_HEIGHT - 2) = (1, 3); in every other case it
returns false. -/
theorem C3_checkWinCondition_char (pieceID : Int) (piece : Piece) (d : MoveDirection) :
    checkWinCondition pieceID piece d = true ↔
      pieceID = 1 ∧ d = MoveDirection.down ∧ piece.topLeft = (⟨1, 3⟩ : PiecePosition) := by
  rw [checkWin_char]
  unfold SUN_ID GRID_HEIGHT
  obtain ⟨s, ⟨x, y⟩, i⟩ := piece
  dsimp only
  rw [PiecePosition.mk.injEq]
  constructor
  · rintro ⟨h1, h2, h3, h4⟩
    exact ⟨h1, h2, h3, by omega⟩
  · rintro ⟨h1, h2, h3, h4⟩
    exact ⟨h1, h2, h3, by omega⟩

/-- C4: the validator `canMoveWithOthers` returns true immediately when the
win-exit exception applies; otherwise it returns false when the piece's own
`canMove` is false; and otherwise it returns true iff the piece moved one step
intersects no entry of the board whose key differs from the moved piece's id
(self-overlap is never tested). -/
theorem C4_canMoveWithOthers_char (B : Board) (k : Int) (d : MoveDirection) (piece : Piece)
    (hget : boardGet B k = some piece) :
    (checkWinCondition k piece d = true → canMoveWithOthers B k d = some true) ∧
    (checkWinCondition k piece d = false → piece.canMove d = false →
      canMoveWithOthers B k d = some false) ∧
    (checkWinCondition k piece d = false → piece.canMove d = true →
      (canMoveWithOthers B k d = some true ↔
        ∀ e ∈ B, e.1 ≠ (piece.move d).id → e.2.intersects (piece.move d) = false)) := by
  refine ⟨fun hwin => canMoveWithOthers_win hget hwin, ?_, ?_⟩
  · intro hwin hcm
    unfold canMoveWithOthers
    simp only [hget]
    rw [if_neg (by simp [hwin]), if_pos (by simp [hcm])]
  · intro hwin hcm
    constructor
    · intro hacc
      have h2 := (canMoveWithOthers_nonwin hget hwin hacc).2
      intro e he hne
      rw [move_preserves_id] at hne
      exact h2 e he hne
    · intro hall
      unfold canMoveWithOthers
      simp only [hget]
      rw [if_neg (by simp [hwin]), if_neg (by simp [hcm])]
      congr 1
      rw [List.all_eq_true]
      intro e he
      by_cases hek : e.1 = (piece.move d).id
      · simp [hek]
      · have h3 := hall e he hek
        simp [bne_iff_ne, hek, h3]

/-- Witness for C4 at a concrete input: the Sun (id 1) on the initial board,
moving down: no win applies, its own canMove holds, and the validator verdict
matches the pointwise no-overlap condition. -/
theorem C4_witness :
    (checkWinCondition 1 (⟨Shape.sunSquare, ⟨1, 0⟩, 1⟩ : Piece) MoveDirection.down = true →
      canMoveWithOthers initializePieces 1 MoveDirection.down = some true) ∧
    (checkWinCondition 1 (⟨Shape.sunSquare, ⟨1, 0⟩, 1⟩ : Piece) MoveDirection.down = false →
      Piece.canMove ⟨Shape.sunSquare, ⟨1, 0⟩, 1⟩ MoveDirection.down = false →
      canMoveWithOthers initializePieces 1 MoveDirection.down = some false) ∧
    (checkWinCondition 1 (⟨Shape.sunSquare, ⟨1, 0⟩, 1⟩ : Piece) MoveDirection.down = false →
      Piece.canMove ⟨Shape.sunSquare, ⟨1, 0⟩, 1⟩ MoveDirection.down = true →
      (canMoveWithOthers initializePieces 1 MoveDirection.down = some true ↔
        ∀ e ∈ initializePieces,
          e.1 ≠ (Piece.move ⟨Shape.sunSquare, ⟨1, 0⟩, 1⟩ MoveDirection.down).id →
          e.2.intersects (Piece.move ⟨Shape.sunSquare, ⟨1, 0⟩, 1⟩ MoveDirection.down) = false)) :=
  C4_canMoveWithOthers_char initializePieces 1 MoveDirection.down
    ⟨Shape.sunSquare, ⟨1, 0⟩, 1⟩ (by decide)

/-- C5 counterexample: a 1×1 Square whose top-left (4, 0) is already outside
the grid can still report canMove "down" = true, although the translated
footprint contains (4, 1), which is outside [0,4)×[0,5).  The claimed
equivalence therefore fails for pieces with out-of-grid positions. -/
theorem C5_counterexample :
    Piece.canMove ⟨Shape.square, ⟨4, 0⟩, 0⟩ MoveDirection.down = true ∧
    ¬ translatedInGrid ⟨Shape.square, ⟨4, 0⟩, 0⟩ MoveDirection.down := by
  constructor
  · decide
  · intro h
    have h2 := h ⟨4, 0⟩ (by simp only [occupiedCellSet, Set.mem_setOf_eq]; decide)
    unfold cellInGrid movePosition GRID_WIDTH GRID_HEIGHT at h2
    dsimp only at h2
    omega

/-- C5 amended: for every piece of any of the four shapes whose occupied cells
all lie inside the grid, and every direction, canMove is true iff translating
every occupied cell one step in that direction keeps all cells within
[0,4)×[0,5). -/
theorem C5_canMove_char (p : Piece) (d : MoveDirection) (hp : pieceInGrid p) :
    p.canMove d = true ↔ translatedInGrid p d := by
  rw [pieceInGrid_iff, inGridB_iff] at hp
  rw [canMove_iff]
  have hd := dims_pos p
  unfold widthInt heightInt at hp hd
  unfold translatedInGrid cellInGrid occupiedCellSet
  simp only [Set.mem_setOf_eq]
  unfold widthInt heightInt GRID_WIDTH GRID_HEIGHT
  cases d
  case up =>
    constructor
    · intro h c hc
      dsimp only [movePosition]
      omega
    · intro h
      have h2 := h p.topLeft (by omega)
      dsimp only [movePosition] at h2
      omega
  case down =>
    constructor
    · intro h c hc
      dsimp only [movePosition]
      omega
    · intro h
      have h2 := h ⟨p.topLeft.x, p.topLeft.y + (p.getDimensions.2 : Int) - 1⟩
        (by dsimp only; omega)
      dsimp only [movePosition] at h2
      omega
  case left =>
    constructor
    · intro h c hc
      dsimp only [movePosition]
      omega
    · intro h
      have h2 := h p.topLeft (by omega)
      dsimp only [movePosition] at h2
      omega
  case right =>
    constructor
    · intro h c hc
      dsimp only [movePosition]
      omega
    · intro h
      have h2 := h ⟨p.topLeft.x + (p.getDimensions.1 : Int) - 1, p.topLeft.y⟩
        (by dsimp only; omega)
      dsimp only [movePosition] at h2
      omega

/-- Witness for C5 at a concrete input: the initial 2×2 Sun at (1, 0) is in
the grid, and the equivalence holds for moving down. -/
theorem C5_witness :
    Piece.canMove ⟨Shape.sunSquare, ⟨1, 0⟩, 1⟩ MoveDirection.down = true ↔
      translatedInGrid ⟨Shape.sunSquare, ⟨1, 0⟩, 1⟩ MoveDirection.down :=
  C5_canMove_char ⟨Shape.sunSquare, ⟨1, 0⟩, 1⟩ MoveDirection.down
    ((pieceInGrid_iff _).mpr (by decide))

/-- C6: `intersects` returns true iff the occupied-cell sets of the two pieces
(the width×height rectangles of cells from their top-left corners, at any
positions, in-grid or not) share at least one cell. -/
theorem C6_intersects_char (p q : Piece) :
    p.intersects q = true ↔
      ∃ c, c ∈ occupiedCellSet p ∧ c ∈ occupiedCellSet q :=
  intersects_iff p q

/-- C9: `intersects` is symmetric in its two pieces, for all shapes and
positions. -/
theorem C9_intersects_symm (p q : Piece) : p.intersects q = q.intersects p :=
  intersects_symm_eq p q

/-- C8: for every piece of any of the four shapes and every direction d with
opposite d, moving one step in d and then one step back yields a piece equal
(same shape, identity and top-left) to the original, provided both moves pass
the canMove bounds check. -/
theorem C8_move_roundtrip (p : Piece) (d : MoveDirection)
    (h1 : p.canMove d = true)
    (h2 : (p.move d).canMove (oppositeDirection d) = true) :
    (p.move d).move (oppositeDirection d) = p := by
  obtain ⟨s, ⟨x, y⟩, i⟩ := p
  cases d <;>
    simp [Piece.move, movePosition, oppositeDirection, Piece.mk.injEq,
      PiecePosition.mk.injEq]

/-- Witness for C8 at a concrete input: a Square at (1, 1) moved down then up
returns to (1, 1). -/
theorem C8_witness :
    (Piece.move (Piece.move ⟨Shape.square, ⟨1, 1⟩, 5⟩ MoveDirection.down)
      (oppositeDirection MoveDirection.down)) = ⟨Shape.square, ⟨1, 1⟩, 5⟩ :=
  C8_move_roundtrip ⟨Shape.square, ⟨1, 1⟩, 5⟩ MoveDirection.down (by decide) (by decide)

/-- C10: the initial board is key-consistent (each key maps to a piece whose
id equals it), every driver move preserves key consistency, and `move`
preserves a piece's identity for all four shapes. -/
theorem C10_keyConsistency :
    keysMatch initializePieces ∧
    (∀ (B : Board) (k : Int) (d : MoveDirection) (B1 : Board) (w : Bool),
      keysMatch B → onMove B k d = some (B1, w) → keysMatch B1) ∧
    (∀ (p : Piece) (d : MoveDirection), (p.move d).id = p.id) := by
  refine ⟨by unfold keysMatch; decide, ?_, fun p d => move_preserves_id p d⟩
  intro B k d B1 w hK hmv
  cases hget : boardGet B k with
  | none =>
    unfold onMove at hmv
    simp only [hget] at hmv
    cases hmv
  | some piece =>
    rw [onMove_eq B k d piece hget, Option.some.injEq, Prod.mk.injEq] at hmv
    obtain ⟨hB1, hw⟩ := hmv
    rw [← hB1]
    exact boardUpdate_keysMatch hK (move_preserves_id piece d)

/-- Witness for C10 at a concrete input: key consistency after the driver
moves piece 0 down on the initial board. -/
theorem C10_witness :
    keysMatch (boardUpdate initializePieces 0
      (Piece.move ⟨Shape.verticalRect, ⟨0, 0⟩, 0⟩ MoveDirection.down)) :=
  C10_keyConsistency.2.1 initializePieces 0 MoveDirection.down
    (boardUpdate initializePieces 0
      (Piece.move ⟨Shape.verticalRect, ⟨0, 0⟩, 0⟩ MoveDirection.down)) false
    (by unfold keysMatch; decide) (by decide)

/-- C7: when the driver applies an accepted move of identity k on a
key-consistent board, the new board maps k to the moved piece, maps every
other identity to the same piece value as before, and has exactly the same
keys (no entry added or removed). -/
theorem C7_onMove_frame (B : Board) (k : Int) (d : MoveDirection) (piece : Piece)
    (B1 : Board) (w : Bool)
    (hKeys : keysMatch B)
    (hget : boardGet B k = some piece)
    (_hacc : canMoveWithOthers B k d = some true)
    (hmv : onMove B k d = some (B1, w)) :
    boardGet B1 k = some (piece.move d) ∧
    (∀ j, j ≠ k → boardGet B1 j = boardGet B j) ∧
    B1.map Prod.fst = B.map Prod.fst := by
  obtain ⟨e0, he0B, he0k, he0p⟩ := boardGet_props B k piece hget
  have hpid : piece.id = k := by rw [← he0p, hKeys e0 he0B, he0k]
  rw [onMove_eq B k d piece hget, Option.some.injEq, Prod.mk.injEq] at hmv
  obtain ⟨hB1, hw⟩ := hmv
  rw [← hB1, hpid]
  refine ⟨boardGet_boardUpdate_self hget, ?_, boardUpdate_keys B k (piece.move d)⟩
  intro j hj
  exact boardGet_boardUpdate_other hj

/-- Witness for C7 at a concrete input: the accepted move of piece 0 down on
the initial board replaces exactly that entry. -/
theorem C7_witness :
    boardGet (boardUpdate initializePieces 0
      (Piece.move ⟨Shape.verticalRect, ⟨0, 0⟩, 0⟩ MoveDirection.down)) 0 =
      some (Piece.move ⟨Shape.verticalRect, ⟨0, 0⟩, 0⟩ MoveDirection.down) ∧
    (∀ j, j ≠ 0 →
      boardGet (boardUpdate initializePieces 0
        (Piece.move ⟨Shape.verticalRect, ⟨0, 0⟩, 0⟩ MoveDirection.down)) j =
      boardGet initializePieces j) ∧
    (boardUpdate initializePieces 0
      (Piece.move ⟨Shape.verticalRect, ⟨0, 0⟩, 0⟩ MoveDirection.down)).map Prod.fst =
      initializePieces.map Prod.fst :=
  C7_onMove_frame initializePieces 0 MoveDirection.down
    ⟨Shape.verticalRect, ⟨0, 0⟩, 0⟩
    (boardUpdate initializePieces 0
      (Piece.move ⟨Shape.verticalRect, ⟨0, 0⟩, 0⟩ MoveDirection.down)) false
    (by unfold keysMatch; decide) (by decide) (by decide) (by decide)

/-- C1 counterexample: on the initial board, moving piece 0 (the VerticalRect
at (0,0)) up is rejected by the validator, yet the driver's onMove still
replaces the entry, producing a changed board: onMove does not re-validate and
does not leave the board unchanged on an illegal move. -/
theorem C1_counterexample :
    canMoveWithOthers initializePieces 0 MoveDirection.up = some false ∧
    onMove initializePieces 0 MoveDirection.up =
      some (boardUpdate initializePieces 0
        (Piece.move ⟨Shape.verticalRect, ⟨0, 0⟩, 0⟩ MoveDirection.up), false) ∧
    boardUpdate initializePieces 0
      (Piece.move ⟨Shape.verticalRect, ⟨0, 0⟩, 0⟩ MoveDirection.up) ≠ initializePieces := by
  refine ⟨by decide, by decide, by decide⟩

/-- C1 amended: the driver's onMove does not re-validate.  Even when the
validator rejects the move, onMove applies it anyway: the entry for the piece
is replaced by the moved piece and the resulting board differs from the old
one (and onMove reports only the win flag, never an accepted flag; the
rejected move is moreover never a winning one, so that flag is false).
Illegal moves are prevented only by the UI, which shows a direction control
just when canMoveWithOthers returns true for it. -/
theorem C1_onMove_applies_rejected (B : Board) (k : Int) (d : MoveDirection) (piece : Piece)
    (hKeys : keysMatch B)
    (hget : boardGet B k = some piece)
    (hrej : canMoveWithOthers B k d = some false) :
    onMove B k d = some (boardUpdate B k (piece.move d), false) ∧
    boardGet (boardUpdate B k (piece.move d)) k = some (piece.move d) ∧
    boardUpdate B k (piece.move d) ≠ B := by
  obtain ⟨e0, he0B, he0k, he0p⟩ := boardGet_props B k piece hget
  have hpid : piece.id = k := by rw [← he0p, hKeys e0 he0B, he0k]
  have hwin : checkWinCondition k piece d = false := by
    by_contra h
    rw [Bool.not_eq_false] at h
    have h2 := canMoveWithOthers_win hget h
    rw [h2] at hrej
    injection hrej with h3
    cases h3
  have hself : boardGet (boardUpdate B k (piece.move d)) k = some (piece.move d) :=
    boardGet_boardUpdate_self hget
  refine ⟨?_, hself, ?_⟩
  · have h4 := onMove_eq B k d piece hget
    rw [hwin, hpid] at h4
    exact h4
  · intro hEq
    have h5 : piece.move d ≠ piece := by
      obtain ⟨s, ⟨x, y⟩, i⟩ := piece
      cases d <;>
        simp [Piece.move, movePosition, Piece.mk.injEq, PiecePosition.mk.injEq]
    rw [hEq] at hself
    rw [hget] at hself
    injection hself with h6
    exact h5 h6.symm

/-- Witness for C1 at a concrete input: the rejected move of piece 0 up on
the initial board is applied anyway. -/
theorem C1_witness :
    onMove initializePieces 0 MoveDirection.up =
      some (boardUpdate initializePieces 0
        (Piece.move ⟨Shape.verticalRect, ⟨0, 0⟩, 0⟩ MoveDirection.up), false) ∧
    boardGet (boardUpdate initializePieces 0
      (Piece.move ⟨Shape.verticalRect, ⟨0, 0⟩, 0⟩ MoveDirection.up)) 0 =
      some (Piece.move ⟨Shape.verticalRect, ⟨0, 0⟩, 0⟩ MoveDirection.up) ∧
    boardUpdate initializePieces 0
      (Piece.move ⟨Shape.verticalRect, ⟨0, 0⟩, 0⟩ MoveDirection.up) ≠ initializePieces :=
  C1_onMove_applies_rejected initializePieces 0 MoveDirection.up
    ⟨Shape.verticalRect, ⟨0, 0⟩, 0⟩
    (by unfold keysMatch; decide) (by decide) (by decide)

/-- C2 counterexample: running the concrete 113 validator-accepted moves of
`solutionMoves` from the initial board reaches `finalBoard` (the last move is
the Sun's accepted win-exit move), and on that reachable board the Sun's
occupied-cell set is not within [0,4)×[0,5): the cell (1,5) lies outside the
grid.  The bounds half of the claim therefore fails for reachable boards. -/
theorem C2_counterexample :
    Reachable finalBoard ∧ ¬ specInGrid finalBoard := by
  constructor
  · exact @reachable_of_run solutionMoves initializePieces finalBoard Reachable.init (by decide)
  · intro h
    have h2 := h (1, ⟨Shape.sunSquare, ⟨1, 4⟩, 1⟩) (by decide) ⟨1, 5⟩
      (by simp only [occupiedCellSet, Set.mem_setOf_eq]; decide)
    unfold cellInGrid GRID_WIDTH GRID_HEIGHT at h2
    dsimp only at h2
    omega

/-- C2 amended: for every board reachable from the fixed ten-piece initial
layout by validator-accepted moves, the occupied-cell sets of any two distinct
pieces are disjoint; and if in addition none of the accepted moves triggered
the win condition, every piece's occupied-cell set lies within [0,4)×[0,5).
(The unamended bounds clause fails exactly through the win-exit move, which
the validator accepts although it takes the Sun out of the grid.) -/
theorem C2_reachable_invariant :
    (∀ B : Board, Reachable B → specDisjoint B) ∧
    (∀ B : Board, ReachableNoWin B → specDisjoint B ∧ specInGrid B) := by
  constructor
  · intro B hR
    exact disjointPieces_spec (reachable_Inv hR).2.2.2.1
  · intro B hR
    obtain ⟨hI, hA⟩ := reachableNoWin_Inv hR
    exact ⟨disjointPieces_spec hI.2.2.2.1, allInGrid_spec hA⟩

/-- Witness for C2 at a concrete input: the initial board is reachable (with
no win move), its pieces are pairwise disjoint and all inside the grid. -/
theorem C2_witness :
    specDisjoint initializePieces ∧ specInGrid initializePieces :=
  ⟨C2_reachable_invariant.1 initializePieces Reachable.init,
   (C2_reachable_invariant.2 initializePieces ReachableNoWin.init).2⟩

end SettingSun
